import Mathlib

/-!
# AFwizard core: filter-pipeline abstraction and identity model

A shallow embedding of the AFwizard core described in `spec.md` and the
repository documentation (`doc/source/extending.rst`, `doc/source/faq.rst`,
the Jupyter notebooks, and `afwizard/schema/pdal.json`).  The Python modules
implementing the core are not part of the source snapshot; every definition
that embeds such a missing module is marked `Modelled from the spec:` and
follows the spec text faithfully.
-/

namespace AFwizard

/-- Modelled from the spec: configuration parameter values are loosely typed
JSON scalars (numbers, strings, booleans); numbers are embedded as rationals. -/
inductive Value where
  | num (q : ℚ)
  | str (s : String)
  | boolean (b : Bool)
deriving DecidableEq, Repr

/-- Modelled from the spec: a Lidar point cloud is a list of points carrying
coordinates and a classification code.  Its internals are out of scope; the
core only threads point clouds through backends. -/
structure PointCloud where
  points : List (ℚ × ℚ × ℚ × Nat)
deriving DecidableEq, Repr

/-- Modelled from the spec (§3 Filter): one configured backend invocation
step.  `config` maps parameter names to concrete values (for end-user-tunable
parameters these are the current/default values); `endUserParams` lists the
names of the parameters deliberately left open for later re-tuning. -/
structure Filter where
  backend : String
  discriminant : String
  config : List (String × Value)
  endUserParams : List String
deriving DecidableEq, Repr

/-- Modelled from the spec (§3 Pipeline): an ordered sequence of Filters with
aggregate metadata (title, description, free-form tags). -/
structure Pipeline where
  filters : List Filter
  title : String
  description : String
  tags : List String
deriving DecidableEq, Repr

/-! ## Identity & Hashing (spec §4.5) -/

/-- Modelled from the spec: the backend/discriminant/parameter-name skeleton
of a Filter, the only per-filter data entering the identity hash. -/
structure FilterSkeleton where
  backend : String
  discriminant : String
  paramNames : List String
deriving DecidableEq, Repr

/-- Skeleton extraction: keeps the backend identifier, the discriminant and
the parameter names, drops all concrete parameter values. -/
def Filter.skeleton (f : Filter) : FilterSkeleton :=
  ⟨f.backend, f.discriminant, f.config.map Prod.fst⟩

/-- Modelled from the spec: the canonical serialization of a Pipeline's
metadata that is hashed — title, description, tags and the per-filter
skeletons.  The hash function itself is injective on this canonical form
(spec: a structurally different pipeline always yields a different hash), so
the embedding identifies the hash with the canonical form. -/
structure PipelineIdentity where
  title : String
  description : String
  tags : List String
  skeleton : List FilterSkeleton
deriving DecidableEq, Repr

/-- Modelled from the spec: `identity(pipeline) -> hash`, computed over the
canonical serialization of the Pipeline's metadata, deliberately excluding
concrete parameter values of end-user-tunable parameters. -/
def identity (p : Pipeline) : PipelineIdentity :=
  ⟨p.title, p.description, p.tags, p.filters.map Filter.skeleton⟩

/-- Two Pipelines differ at most in concrete parameter values of their
filters: same metadata, same ordered backend/discriminant/parameter-name
skeleton, same end-user parameter declarations. -/
def Pipeline.retuned (p p' : Pipeline) : Prop :=
  p.title = p'.title ∧ p.description = p'.description ∧ p.tags = p'.tags ∧
  p.filters.map Filter.skeleton = p'.filters.map Filter.skeleton ∧
  p.filters.map Filter.endUserParams = p'.filters.map Filter.endUserParams

instance (p p' : Pipeline) : Decidable (p.retuned p') := by
  unfold Pipeline.retuned
  infer_instance

/-- The backend/discriminant sequence of a Pipeline. -/
def Pipeline.backendSeq (p : Pipeline) : List (String × String) :=
  p.filters.map (fun f => (f.backend, f.discriminant))

theorem backendSeq_eq_map_skeleton (p : Pipeline) :
    p.backendSeq = (p.filters.map Filter.skeleton).map
      (fun s => (s.backend, s.discriminant)) := by
  simp [Pipeline.backendSeq, Filter.skeleton]

/-- C1: re-tuning end-user parameter values keeps the identity; a different
backend/discriminant sequence changes it. -/
theorem identity_stable_and_discriminating (p p' p'' : Pipeline)
    (hre : p.retuned p') (hdiff : p.backendSeq ≠ p''.backendSeq) :
    identity p = identity p' ∧ identity p ≠ identity p'' := by
  obtain ⟨ht, hd, htg, hsk, _⟩ := hre
  constructor
  · simp [identity, ht, hd, htg, hsk]
  · intro he
    apply hdiff
    have hskel : p.filters.map Filter.skeleton = p''.filters.map Filter.skeleton := by
      have := congrArg PipelineIdentity.skeleton he
      simpa [identity] using this
    rw [backendSeq_eq_map_skeleton, backendSeq_eq_map_skeleton, hskel]

/-- Concrete instantiation of `identity_stable_and_discriminating`. -/
def pC1 : Pipeline :=
  ⟨[⟨"pdal", "filters.smrf", [("slope", .num (1/5))], ["slope"]⟩],
    "T", "D", ["tag"]⟩

def pC1' : Pipeline :=
  ⟨[⟨"pdal", "filters.smrf", [("slope", .num (3/10))], ["slope"]⟩],
    "T", "D", ["tag"]⟩

def pC1'' : Pipeline :=
  ⟨[⟨"pdal", "filters.csf", [("slope", .num (1/5))], ["slope"]⟩],
    "T", "D", ["tag"]⟩

theorem identity_stable_and_discriminating_witness :
    pC1.retuned pC1' ∧ pC1.backendSeq ≠ pC1''.backendSeq ∧
      (identity pC1 = identity pC1' ∧ identity pC1 ≠ identity pC1'') := by
  refine ⟨?_, ?_, identity_stable_and_discriminating pC1 pC1' pC1'' ?_ ?_⟩
  · decide
  · decide
  · decide
  · decide

/-! ## Schema Composer (spec §4.1, `doc/source/extending.rst`,
`afwizard/schema/pdal.json`) -/

/-- Value types appearing in backend configuration schemas
(`"type"` keywords of `afwizard/schema/pdal.json`). -/
inductive ValType where
  | number
  | string
  | booleanT
deriving DecidableEq, Repr

/-- One property entry of a schema variant: its value type and an optional
`const` restriction (as in the discriminant entries of
`afwizard/schema/pdal.json`). -/
structure PropSchema where
  vtype : ValType
  constv : Option Value
deriving DecidableEq, Repr

/-- Does a concrete value satisfy a property schema? -/
def PropSchema.check (s : PropSchema) (v : Value) : Bool :=
  (match s.vtype, v with
    | .number, .num _ => true
    | .string, .str _ => true
    | .booleanT, .boolean _ => true
    | _, _ => false) &&
  (match s.constv with
    | none => true
    | some c => v = c)

/-- Modelled from the spec: one schema variant of a backend, before the
composer tags it with the backend identifier — an object schema listing its
properties and the required property names (cf. the `anyOf` members of
`afwizard/schema/pdal.json`). -/
structure VariantBody where
  properties : List (String × PropSchema)
  required : List String
deriving DecidableEq, Repr

/-- A configuration object: a flat mapping of field names to values. -/
abbrev Config := List (String × Value)

/-- Look up a field of a configuration object. -/
def getField (c : Config) (name : String) : Option Value :=
  (c.find? (fun kv => kv.1 = name)).map Prod.snd

/-- Does a configuration conform to a variant body (ignoring the `_backend`
discriminator, which the composer handles)?  Every required property is
present and every present field other than `_backend` matches its property
schema. -/
def bodyConforms (b : VariantBody) (c : Config) : Bool :=
  b.required.all (fun r => (getField c r).isSome) &&
  c.all (fun kv =>
    kv.1 = "_backend" ||
    match (b.properties.find? (fun ps => ps.1 = kv.1)) with
    | some ps => ps.2.check kv.2
    | none => false)

/-- Modelled from the spec (§3 Backend descriptor): identifier, schema
variants, and the `enabled` capability check.  Per
`doc/source/extending.rst`, `enabled` "defaults to True"; a backend class
that overrides it is modelled by `enabledOverride = some b`. -/
structure BackendDescr where
  identifier : String
  variants : List VariantBody
  enabledOverride : Option Bool
deriving DecidableEq, Repr

/-- The `enabled()` check: the override when present, `true` otherwise
(`doc/source/extending.rst`: "This methods defaults to True"). -/
def BackendDescr.enabled (b : BackendDescr) : Bool :=
  b.enabledOverride.getD true

/-- A variant of the unified schema: a variant body tagged with the
identifier of the backend it came from (the `_backend` const). -/
structure Variant where
  backendId : String
  body : VariantBody
deriving DecidableEq, Repr

/-- Modelled from the spec: the unified schema — a discriminated union
("anyOf" semantics) over all backend schema variants. -/
structure UnifiedSchema where
  variants : List Variant
deriving DecidableEq, Repr

/-- Modelled from the spec: `compose(backend_descriptors) -> unified_schema`.
Only enabled backends contribute; each variant is unmodified except for being
tagged with the required `_backend` field. -/
def compose (registry : List BackendDescr) : UnifiedSchema :=
  ⟨(registry.filter BackendDescr.enabled).flatMap
    (fun b => b.variants.map (Variant.mk b.identifier))⟩

/-- Does a configuration match one tagged variant?  Its `_backend` field must
be present and equal the variant's backend identifier, and the rest must
conform to the variant body. -/
def variantMatches (c : Config) (v : Variant) : Bool :=
  getField c "_backend" = some (.str v.backendId) && bodyConforms v.body c

/-- Modelled from the spec: `validate(config, unified_schema)` — the
configuration must match some variant of the discriminated union. -/
def validate (c : Config) (s : UnifiedSchema) : Bool :=
  s.variants.any (variantMatches c)

/-- C3: validation against the composed schema succeeds exactly when the
configuration carries a `_backend` field naming a registered (enabled)
backend and conforms to one of that backend's schema variants. -/
theorem validate_compose_iff (c : Config) (registry : List BackendDescr) :
    validate c (compose registry) = true ↔
      ∃ b ∈ registry, b.enabled = true ∧
        getField c "_backend" = some (.str b.identifier) ∧
        ∃ body ∈ b.variants, bodyConforms body c = true := by
  unfold validate compose
  simp only [List.any_eq_true, List.mem_flatMap, List.mem_filter, List.mem_map]
  constructor
  · rintro ⟨v, ⟨b, ⟨hb, hen⟩, body, hbody, rfl⟩, hm⟩
    have hm' := hm
    unfold variantMatches at hm'
    simp only [Bool.and_eq_true, decide_eq_true_eq] at hm'
    exact ⟨b, hb, hen, hm'.1, body, hbody, hm'.2⟩
  · rintro ⟨b, hb, hen, hback, body, hbody, hconf⟩
    refine ⟨⟨b.identifier, body⟩, ⟨b, ⟨hb, hen⟩, body, hbody, rfl⟩, ?_⟩
    unfold variantMatches
    simp [hback, hconf]

/-- C9: a backend that does not override `enabled()` reports itself as
available, and all its schema variants are included when the unified schema
is composed from a registry containing it. -/
theorem enabled_default_true (b : BackendDescr) (registry : List BackendDescr)
    (hno : b.enabledOverride = none) (hreg : b ∈ registry) :
    b.enabled = true ∧
      ∀ body ∈ b.variants, Variant.mk b.identifier body ∈ (compose registry).variants := by
  have hen : b.enabled = true := by simp [BackendDescr.enabled, hno]
  refine ⟨hen, fun body hbody => ?_⟩
  unfold compose
  simp only [List.mem_flatMap, List.mem_filter, List.mem_map]
  exact ⟨b, ⟨hreg, hen⟩, body, hbody, rfl⟩

/-- A backend descriptor with no `enabled` override, as in the
`MyBackend` example of `doc/source/extending.rst` without its final method. -/
def bC9 : BackendDescr :=
  ⟨"mybackend",
    [⟨[("_backend", ⟨.string, some (.str "mybackend")⟩),
       ("myparameter", ⟨.number, none⟩)], []⟩],
    none⟩

theorem enabled_default_true_witness :
    bC9.enabledOverride = none ∧ bC9 ∈ [bC9] ∧
      (bC9.enabled = true ∧
        ∀ body ∈ bC9.variants, Variant.mk bC9.identifier body ∈ (compose [bC9]).variants) := by
  refine ⟨rfl, by simp, enabled_default_true bC9 [bC9] rfl (by simp)⟩

/-! ## Range Expander (spec §4.4, `jupyter/filtering.ipynb` cell 19) -/

instance {ε α : Type _} [DecidableEq ε] [DecidableEq α] :
    DecidableEq (Except ε α) := fun x y =>
  match x, y with
  | .ok a, .ok b => decidable_of_iff (a = b) (by simp)
  | .error e, .error f => decidable_of_iff (e = f) (by simp)
  | .ok _, .error _ => isFalse (by simp)
  | .error _, .ok _ => isFalse (by simp)

/-- A parsed numeric literal in scaled-decimal form: the value is
`mantissa / 10 ^ scale`.  Integer literals (`scale = 0`, `isFloat = false`)
and decimal-point literals are distinguished because bound pairs behave
differently for the two. -/
structure SciNum where
  mantissa : ℤ
  scale : ℕ
  isFloat : Bool
deriving DecidableEq, Repr

/-- Numeric value of a literal. -/
def SciNum.toRat (x : SciNum) : ℚ :=
  mkRat x.mantissa (10 ^ x.scale)

/-- Negation of a literal. -/
def SciNum.neg (x : SciNum) : SciNum :=
  ⟨-x.mantissa, x.scale, x.isFloat⟩

/-- The mantissa of a literal rescaled to a common (larger) scale. -/
def SciNum.atScale (x : SciNum) (S : ℕ) : ℤ :=
  x.mantissa * 10 ^ (S - x.scale)

/-- Modelled from the spec (§7): errors of the range-expansion parser. -/
inductive RangeErr where
  | nonNumeric (s : String)
  | reversedBounds
  | contrarySign
  | malformed
deriving DecidableEq, Repr

/-- Split a character list at every occurrence of a separator. -/
def splitChars (sep : Char) : List Char → List (List Char)
  | [] => [[]]
  | c :: rest =>
    if c = sep then [] :: splitChars sep rest
    else
      match splitChars sep rest with
      | [] => [[c]]
      | g :: gs => (c :: g) :: gs

/-- Strip leading and trailing spaces. -/
def trimChars (cs : List Char) : List Char :=
  ((cs.dropWhile (· = ' ')).reverse.dropWhile (· = ' ')).reverse

/-- Parse a nonempty all-digit character list as a natural number. -/
def natOfDigits (cs : List Char) : Option ℕ :=
  if cs.isEmpty then none
  else if cs.all Char.isDigit then
    some (cs.foldl (fun a c => 10 * a + (c.toNat - 48)) 0)
  else none

/-- Parse an unsigned numeric literal: digits, or digits `.` digits. -/
def parseUnsigned (cs : List Char) : Option SciNum :=
  match splitChars '.' cs with
  | [whole] => (natOfDigits whole).map (fun n => ⟨n, 0, false⟩)
  | [whole, frac] =>
    match natOfDigits whole, natOfDigits frac with
    | some w, some f => some ⟨w * 10 ^ frac.length + f, frac.length, true⟩
    | _, _ => none
  | _ => none

/-- Modelled from the spec: parse one numeric literal of a range
specification (optional sign, surrounding whitespace allowed). -/
def parseNum (cs : List Char) : Option SciNum :=
  match trimChars cs with
  | '-' :: rest => (parseUnsigned rest).map SciNum.neg
  | '+' :: rest => parseUnsigned rest
  | other => parseUnsigned other

/-- Modelled from the spec: a bound triple `a:b:c` — increment `c`, whose
sign must match the direction from `a` to `b` (a contrary or zero increment
is an error).  All arithmetic is exact, over mantissas at a common scale. -/
def expandTriple (x y z : SciNum) : Except RangeErr (List ℚ) :=
  let S := max x.scale (max y.scale z.scale)
  let a := x.atScale S
  let b := y.atScale S
  let c := z.atScale S
  if c = 0 then .error .contrarySign
  else if a < b ∧ c < 0 then .error .contrarySign
  else if b < a ∧ 0 < c then .error .contrarySign
  else .ok ((List.range (((b - a).ediv c).toNat + 1)).map
    (fun i : ℕ => mkRat (a + (i : ℤ) * c) (10 ^ S)))

/-- Modelled from the spec: a bound pair `a:b` — for integer bounds the
arithmetic sequence from `a` to `b` inclusive with increment 1, for
floating-point bounds exactly 5 evenly spaced samples including both
endpoints; reversed bounds without an explicit increment are an error. -/
def expandPair (x y : SciNum) : Except RangeErr (List ℚ) :=
  let S := max x.scale y.scale
  let a := x.atScale S
  let b := y.atScale S
  if b < a then .error .reversedBounds
  else if x.isFloat || y.isFloat then
    .ok ((List.range 5).map
      (fun i : ℕ => mkRat (4 * a + (i : ℤ) * (b - a)) (4 * 10 ^ S)))
  else .ok ((List.range ((b - a).toNat + 1)).map
    (fun i : ℕ => mkRat (a + (i : ℤ)) (10 ^ S)))

/-- Modelled from the spec: expand one comma-separated segment — a single
literal, a bound pair, or a bound triple. -/
def expandSegment (cs : List Char) : Except RangeErr (List ℚ) :=
  match (splitChars ':' cs).mapM parseNum with
  | none => .error (.nonNumeric (String.mk cs))
  | some [v] => .ok [v.toRat]
  | some [x, y] => expandPair x y
  | some [x, y, z] => expandTriple x y z
  | some _ => .error .malformed

/-- Expand a list of segments, concatenating results in the order written;
any malformed segment fails the whole expansion. -/
def expandSegments : List (List Char) → Except RangeErr (List ℚ)
  | [] => .ok []
  | s :: rest => do
    let v ← expandSegment s
    let vs ← expandSegments rest
    pure (v ++ vs)

/-- Modelled from the spec: `expand` — parse a parameter range specification
string into the materialized sequence of concrete values. -/
def expand (s : String) : Except RangeErr (List ℚ) :=
  expandSegments (splitChars ',' s.data)

theorem toRat_atScale (x : SciNum) (S : ℕ) (h : x.scale ≤ S) :
    x.toRat = (x.atScale S : ℚ) / 10 ^ S := by
  unfold SciNum.toRat SciNum.atScale
  rw [Rat.mkRat_eq_div]
  have h10 : (10 : ℚ) ^ S = 10 ^ x.scale * 10 ^ (S - x.scale) := by
    rw [← pow_add]
    congr 1
    omega
  push_cast
  rw [h10, div_eq_div_iff (by positivity) (by positivity)]
  ring

theorem atScale_lt_iff (x y : SciNum) (S : ℕ)
    (hx : x.scale ≤ S) (hy : y.scale ≤ S) :
    x.atScale S < y.atScale S ↔ x.toRat < y.toRat := by
  rw [toRat_atScale x S hx, toRat_atScale y S hy,
    div_lt_div_iff_of_pos_right (by positivity)]
  exact_mod_cast Iff.rfl

theorem atScale_neg_iff (z : SciNum) (S : ℕ) (hz : z.scale ≤ S) :
    z.atScale S < 0 ↔ z.toRat < 0 := by
  rw [toRat_atScale z S hz]
  rw [show (0 : ℚ) = 0 / 10 ^ S by simp,
    div_lt_div_iff_of_pos_right (by positivity)]
  exact_mod_cast Iff.rfl

theorem atScale_pos_iff (z : SciNum) (S : ℕ) (hz : z.scale ≤ S) :
    0 < z.atScale S ↔ 0 < z.toRat := by
  rw [toRat_atScale z S hz]
  rw [show (0 : ℚ) = 0 / 10 ^ S by simp,
    div_lt_div_iff_of_pos_right (by positivity)]
  exact_mod_cast Iff.rfl

theorem expandPair_int (a b : ℤ) (h : a ≤ b) :
    expandPair ⟨a, 0, false⟩ ⟨b, 0, false⟩ =
      .ok ((List.range ((b - a).toNat + 1)).map (fun i : ℕ => (a : ℚ) + (i : ℚ))) := by
  unfold expandPair SciNum.atScale
  simp only [max_self, Nat.sub_zero, pow_zero, mul_one, Bool.or_self, if_neg (not_lt.mpr h)]
  simp only [Bool.false_eq_true, if_false]
  congr 1
  apply List.map_congr_left
  intro i _
  rw [Rat.mkRat_one]
  push_cast
  ring

theorem expandPair_float (x y : SciNum) (hf : (x.isFloat || y.isFloat) = true)
    (hle : x.toRat ≤ y.toRat) :
    expandPair x y =
      .ok ((List.range 5).map
        (fun i : ℕ => x.toRat + (i : ℚ) * ((y.toRat - x.toRat) / 4))) ∧
    ((List.range 5).map
        (fun i : ℕ => x.toRat + (i : ℚ) * ((y.toRat - x.toRat) / 4))).head? =
      some x.toRat ∧
    ((List.range 5).map
        (fun i : ℕ => x.toRat + (i : ℚ) * ((y.toRat - x.toRat) / 4))).getLast? =
      some y.toRat := by
  have hxS : x.scale ≤ max x.scale y.scale := le_max_left _ _
  have hyS : y.scale ≤ max x.scale y.scale := le_max_right _ _
  have hnotlt : ¬ y.atScale (max x.scale y.scale) < x.atScale (max x.scale y.scale) := by
    rw [atScale_lt_iff y x _ hyS hxS]
    exact not_lt.mpr hle
  refine ⟨?_, ?_, ?_⟩
  · unfold expandPair
    simp only [if_neg hnotlt, hf, if_true]
    congr 1
    apply List.map_congr_left
    intro i _
    rw [Rat.mkRat_eq_div, toRat_atScale x _ hxS, toRat_atScale y _ hyS]
    have hE : (0 : ℚ) < 10 ^ max x.scale y.scale := by positivity
    push_cast
    field_simp
    ring
  · simp [List.range_succ_eq_map]
  · rw [List.getLast?_map]
    have h4 : (List.range 5).getLast? = some 4 := by decide
    rw [h4]
    simp only [Option.map]
    congr 1
    ring

theorem expandSegments_append (l₁ l₂ : List (List Char)) :
    expandSegments (l₁ ++ l₂) = (do
      let v ← expandSegments l₁
      let w ← expandSegments l₂
      pure (v ++ w)) := by
  induction l₁ with
  | nil =>
    simp only [List.nil_append, expandSegments]
    cases expandSegments l₂ <;> simp [Except.bind, Bind.bind, pure, Except.pure]
  | cons s rest ih =>
    simp only [List.cons_append, expandSegments, List.append_eq]
    rw [ih]
    cases expandSegment s with
    | error e => simp [Except.bind, Bind.bind]
    | ok v =>
      cases hr : expandSegments rest with
      | error e => simp [Except.bind, Bind.bind, hr]
      | ok vs =>
        cases hl : expandSegments l₂ with
        | error e => simp [Except.bind, Bind.bind, hr, hl, pure, Except.pure]
        | ok ws =>
          simp [Except.bind, Bind.bind, hr, hl, pure, Except.pure,
            List.append_assoc]

/-- C4: `expand` materializes well-formed range specifications — comma lists
expand to the written values in order with duplicates kept, integer bound
pairs to the inclusive arithmetic sequence with increment 1, float bound
pairs to exactly 5 evenly spaced samples including both endpoints, bound
triples use the written increment, and mixed segments concatenate in the
order written. -/
theorem expand_materializes_ranges :
    expand "1,2,3" = .ok [1, 2, 3] ∧
    expand "1,2,2,1" = .ok [1, 2, 2, 1] ∧
    expand "1:5" = .ok [1, 2, 3, 4, 5] ∧
    expand "0:1:0.25" = .ok [0, 1/4, 1/2, 3/4, 1] ∧
    expand "5:1:-2" = .ok [5, 3, 1] ∧
    expand "1, 3:5" = .ok [1, 3, 4, 5] ∧
    (∀ l₁ l₂ : List (List Char), expandSegments (l₁ ++ l₂) = (do
      let v ← expandSegments l₁
      let w ← expandSegments l₂
      pure (v ++ w))) ∧
    (∀ a b : ℤ, a ≤ b → expandPair ⟨a, 0, false⟩ ⟨b, 0, false⟩ =
      .ok ((List.range ((b - a).toNat + 1)).map
        (fun i : ℕ => (a : ℚ) + (i : ℚ)))) ∧
    (∀ x y : SciNum, (x.isFloat || y.isFloat) = true → x.toRat ≤ y.toRat →
      expandPair x y = .ok ((List.range 5).map
          (fun i : ℕ => x.toRat + (i : ℚ) * ((y.toRat - x.toRat) / 4))) ∧
        ((List.range 5).map
          (fun i : ℕ => x.toRat + (i : ℚ) * ((y.toRat - x.toRat) / 4))).head? =
          some x.toRat ∧
        ((List.range 5).map
          (fun i : ℕ => x.toRat + (i : ℚ) * ((y.toRat - x.toRat) / 4))).getLast? =
          some y.toRat) := by
  refine ⟨by decide, by decide, by decide, ?_, by decide, by decide,
    expandSegments_append, expandPair_int, expandPair_float⟩
  have h : expand "0:1:0.25" =
      .ok [mkRat 0 100, mkRat 25 100, mkRat 50 100, mkRat 75 100, mkRat 100 100] := by
    decide
  rw [h]
  norm_num [Rat.mkRat_eq_div]

theorem expand_materializes_ranges_witness :
    ((2 : ℤ) ≤ 4 ∧ expandPair ⟨2, 0, false⟩ ⟨4, 0, false⟩ =
      .ok ((List.range (((4 : ℤ) - 2).toNat + 1)).map
        (fun i : ℕ => ((2 : ℤ) : ℚ) + (i : ℚ)))) ∧
    ((SciNum.isFloat ⟨5, 1, true⟩ || SciNum.isFloat ⟨5, 0, false⟩) = true ∧
      SciNum.toRat ⟨5, 1, true⟩ ≤ SciNum.toRat ⟨5, 0, false⟩ ∧
      expandPair ⟨5, 1, true⟩ ⟨5, 0, false⟩ = .ok ((List.range 5).map
        (fun i : ℕ => SciNum.toRat ⟨5, 1, true⟩ + (i : ℚ) *
          ((SciNum.toRat ⟨5, 0, false⟩ - SciNum.toRat ⟨5, 1, true⟩) / 4)))) := by
  refine ⟨⟨by norm_num, expand_materializes_ranges.2.2.2.2.2.2.2.1 2 4 (by norm_num)⟩,
    rfl, by decide,
    (expand_materializes_ranges.2.2.2.2.2.2.2.2 ⟨5, 1, true⟩ ⟨5, 0, false⟩
      rfl (by decide)).1⟩

/-- C5: `expand` rejects malformed specifications with a `RangeErr` at parse
time: non-numeric input, a reversed bound pair without an explicit
increment, and a bound triple whose increment's sign is contrary to the
direction from `a` to `b`; expansion succeeds exactly when every segment
expands, so an error is raised before any value list is produced. -/
theorem expand_rejects_malformed :
    expand "abc" = .error (.nonNumeric "abc") ∧
    expand "5:1" = .error .reversedBounds ∧
    expand "1:5:-1" = .error .contrarySign ∧
    (∀ x y : SciNum, y.toRat < x.toRat →
      expandPair x y = .error .reversedBounds) ∧
    (∀ x y z : SciNum, x.toRat < y.toRat → z.toRat < 0 →
      expandTriple x y z = .error .contrarySign) ∧
    (∀ x y z : SciNum, y.toRat < x.toRat → 0 < z.toRat →
      expandTriple x y z = .error .contrarySign) ∧
    (∀ cs : List Char, (splitChars ':' cs).mapM parseNum = none →
      expandSegment cs = .error (.nonNumeric (String.mk cs))) ∧
    (∀ l : List (List Char),
      (∃ vs, expandSegments l = .ok vs) ↔
        ∀ s ∈ l, ∃ v, expandSegment s = .ok v) := by
  refine ⟨by decide, by decide, by decide, ?_, ?_, ?_, ?_, ?_⟩
  · intro x y h
    have hb : y.atScale (max x.scale y.scale) < x.atScale (max x.scale y.scale) :=
      (atScale_lt_iff y x _ (le_max_right _ _) (le_max_left _ _)).mpr h
    simp only [expandPair]
    rw [if_pos hb]
  · intro x y z hab hc
    have hxS : x.scale ≤ max x.scale (max y.scale z.scale) := le_max_left _ _
    have hyS : y.scale ≤ max x.scale (max y.scale z.scale) :=
      le_trans (le_max_left _ _) (le_max_right _ _)
    have hzS : z.scale ≤ max x.scale (max y.scale z.scale) :=
      le_trans (le_max_right _ _) (le_max_right _ _)
    have h1 : x.atScale _ < y.atScale _ := (atScale_lt_iff x y _ hxS hyS).mpr hab
    have h2 : z.atScale (max x.scale (max y.scale z.scale)) < 0 :=
      (atScale_neg_iff z _ hzS).mpr hc
    simp only [expandTriple]
    rw [if_neg (by omega), if_pos ⟨h1, h2⟩]
  · intro x y z hba hc
    have hxS : x.scale ≤ max x.scale (max y.scale z.scale) := le_max_left _ _
    have hyS : y.scale ≤ max x.scale (max y.scale z.scale) :=
      le_trans (le_max_left _ _) (le_max_right _ _)
    have hzS : z.scale ≤ max x.scale (max y.scale z.scale) :=
      le_trans (le_max_right _ _) (le_max_right _ _)
    have h1 : y.atScale _ < x.atScale _ := (atScale_lt_iff y x _ hyS hxS).mpr hba
    have h2 : 0 < z.atScale (max x.scale (max y.scale z.scale)) :=
      (atScale_pos_iff z _ hzS).mpr hc
    simp only [expandTriple]
    rw [if_neg (by omega), if_neg (by omega), if_pos ⟨h1, h2⟩]
  · intro cs h
    simp only [expandSegment, h]
  · intro l
    induction l with
    | nil => simp [expandSegments]
    | cons s rest ih =>
      constructor
      · rintro ⟨vs, hvs⟩
        intro t ht
        rcases List.mem_cons.mp ht with rfl | ht'
        · rcases hs : expandSegment t with e | v
          · simp only [expandSegments, hs] at hvs
            simp [Except.bind, Bind.bind] at hvs
          · exact ⟨v, by simp [hs]⟩
        · rcases hs : expandSegment s with e | v
          · simp only [expandSegments, hs] at hvs
            simp [Except.bind, Bind.bind] at hvs
          · rcases hr : expandSegments rest with e | ws
            · simp only [expandSegments, hs, hr] at hvs
              simp [Except.bind, Bind.bind] at hvs
            · exact (ih.mp ⟨ws, hr⟩) t ht'
      · intro hall
        obtain ⟨v, hv⟩ := hall s (List.mem_cons_self s rest)
        obtain ⟨ws, hws⟩ := ih.mpr (fun t ht => hall t (List.mem_cons_of_mem s ht))
        refine ⟨v ++ ws, ?_⟩
        simp only [expandSegments, hv, hws]
        rfl

theorem expand_rejects_malformed_witness :
    (SciNum.toRat ⟨1, 0, false⟩ < SciNum.toRat ⟨5, 0, false⟩ ∧
      SciNum.toRat ⟨-1, 0, false⟩ < 0 ∧
      expandTriple ⟨1, 0, false⟩ ⟨5, 0, false⟩ ⟨-1, 0, false⟩ =
        .error .contrarySign) ∧
    (SciNum.toRat ⟨3, 0, false⟩ < SciNum.toRat ⟨7, 0, false⟩ ∧
      expandPair ⟨7, 0, false⟩ ⟨3, 0, false⟩ = .error .reversedBounds) := by
  refine ⟨⟨by decide, by decide, ?_⟩, by decide, ?_⟩
  · exact expand_rejects_malformed.2.2.2.2.1 ⟨1, 0, false⟩ ⟨5, 0, false⟩
      ⟨-1, 0, false⟩ (by decide) (by decide)
  · exact expand_rejects_malformed.2.2.2.1 ⟨7, 0, false⟩ ⟨3, 0, false⟩ (by decide)

/-! ## Filter and Pipeline execution (spec §4.2, §4.3) -/

/-- Modelled from the spec: execution errors — attempting to execute a
templated Filter, a backend failure (wrapping the backend's diagnostic), or
an unregistered backend identifier. -/
inductive ExecErr where
  | unresolvedParameter (name : String)
  | backendExecution (diagnostic : String)
  | unknownBackend (id : String)
deriving DecidableEq, Repr

/-- Modelled from the spec (§6): the execution environment maps backend
identifiers to their `execute(dataset, config) -> dataset` contract; the
backends themselves are external collaborators. -/
abbrev ExecEnv :=
  String → Option (String → Config → PointCloud → Except String PointCloud)

/-- Modelled from the spec (§4.2): `Filter.execute` — fails with
`UnresolvedParameterError` on a templated Filter, otherwise delegates to the
backend's execute contract, wrapping a backend failure in
`BackendExecutionError`. -/
def Filter.execute (env : ExecEnv) (f : Filter) (d : PointCloud) :
    Except ExecErr PointCloud :=
  match f.endUserParams with
  | n :: _ => .error (.unresolvedParameter n)
  | [] =>
    match env f.backend with
    | none => .error (.unknownBackend f.backend)
    | some run =>
      match run f.discriminant f.config d with
      | .ok out => .ok out
      | .error diag => .error (.backendExecution diag)

/-- Modelled from the spec (§4.3): `Pipeline.execute` folds `Filter.execute`
over the Filter sequence in declaration order, threading each step's output
into the next step, failing on the first Filter failure. -/
def Pipeline.execute (env : ExecEnv) (p : Pipeline) (d : PointCloud) :
    Except ExecErr PointCloud :=
  p.filters.foldlM (fun acc f => f.execute env acc) d

theorem except_bind_pure {ε α : Type _} (x : Except ε α) :
    x.bind (fun a => Except.ok a) = x := by
  cases x <;> rfl

theorem execute_nil (env : ExecEnv) (t dsc : String) (tg : List String)
    (d : PointCloud) :
    Pipeline.execute env ⟨[], t, dsc, tg⟩ d = .ok d := rfl

theorem execute_cons (env : ExecEnv) (f : Filter) (fs : List Filter)
    (t dsc : String) (tg : List String) (d : PointCloud) :
    Pipeline.execute env ⟨f :: fs, t, dsc, tg⟩ d =
      (f.execute env d).bind
        (fun d' => Pipeline.execute env ⟨fs, t, dsc, tg⟩ d') := by
  unfold Pipeline.execute
  rw [List.foldlM_cons]
  rfl

theorem execute_filters_append (env : ExecEnv) (fs₁ fs₂ : List Filter)
    (t dsc : String) (tg : List String) (d : PointCloud) :
    Pipeline.execute env ⟨fs₁ ++ fs₂, t, dsc, tg⟩ d =
      (Pipeline.execute env ⟨fs₁, t, dsc, tg⟩ d).bind
        (Pipeline.execute env ⟨fs₂, t, dsc, tg⟩) := by
  induction fs₁ generalizing d with
  | nil =>
    simp only [List.nil_append, execute_nil]
    rfl
  | cons f rest ih =>
    simp only [List.cons_append, execute_cons]
    cases f.execute env d with
    | error e => rfl
    | ok d' =>
      simp only [Except.bind]
      exact ih d'

/-- C7: Pipeline execution folds Filter execution left-to-right, threading
each output into the next step, so a 3-step Pipeline equals the chaining of
any split into two sub-pipelines. -/
theorem pipeline_execute_fold_and_split (env : ExecEnv)
    (f1 f2 f3 : Filter) (t dsc : String) (tg : List String) (d : PointCloud) :
    Pipeline.execute env ⟨[f1, f2, f3], t, dsc, tg⟩ d =
      (f1.execute env d).bind (fun d1 =>
        (f2.execute env d1).bind (fun d2 => f3.execute env d2)) ∧
    Pipeline.execute env ⟨[f1, f2, f3], t, dsc, tg⟩ d =
      (Pipeline.execute env ⟨[f1], t, dsc, tg⟩ d).bind
        (Pipeline.execute env ⟨[f2, f3], t, dsc, tg⟩) ∧
    Pipeline.execute env ⟨[f1, f2, f3], t, dsc, tg⟩ d =
      (Pipeline.execute env ⟨[f1, f2], t, dsc, tg⟩ d).bind
        (Pipeline.execute env ⟨[f3], t, dsc, tg⟩) := by
  refine ⟨?_, ?_, ?_⟩
  · simp only [execute_cons, execute_nil, except_bind_pure]
  · exact execute_filters_append env [f1] [f2, f3] t dsc tg d
  · exact execute_filters_append env [f1, f2] [f3] t dsc tg d

/-! ## Backend execute contract and dataset immutability (spec §4.2,
`doc/source/extending.rst` `MyBackend.execute`) -/

/-- A dataset handle: datasets are exchanged as files/objects identified by
a handle, never mutated in place. -/
abbrev Handle := ℕ

/-- The dataset store: which handles hold which point clouds, plus the next
fresh handle (`get_temporary_filename` in `doc/source/extending.rst`). -/
structure Store where
  contents : Handle → Option PointCloud
  next : Handle

/-- Well-formed store: unallocated handles past `next` are empty. -/
def Store.WF (st : Store) : Prop :=
  ∀ h, st.next ≤ h → st.contents h = none

/-- Modelled from the spec (§7): wraps an underlying backend failure with
its diagnostic output attached. -/
inductive BackendExecutionError where
  | wrapped (diagnostic : String)
deriving DecidableEq, Repr

/-- Modelled from `doc/source/extending.rst` (`MyBackend.execute`): read the
input dataset, obtain a fresh output handle, run the backend program
(`runProc`, e.g. a subprocess; it may fail), and either store the result
under the fresh handle or propagate the wrapped failure.  The input handle's
contents are never written. -/
def backendExecute (runProc : Config → PointCloud → Except String PointCloud)
    (cfg : Config) (st : Store) (d : Handle) :
    Store × Except BackendExecutionError Handle :=
  match st.contents d with
  | none => (st, .error (.wrapped "input dataset not found"))
  | some pc =>
    match runProc cfg pc with
    | .error diag => (st, .error (.wrapped diag))
    | .ok out =>
      (⟨fun h => if h = st.next then some out else st.contents h, st.next + 1⟩,
        .ok st.next)

/-- C8: the backend execute contract returns a fresh dataset handle and
leaves the input dataset unchanged; on a backend failure it raises
`BackendExecutionError` wrapping the backend's diagnostic and leaves the
whole store untouched — the input dataset is never partially mutated on
either path. -/
theorem backendExecute_immutable
    (runProc : Config → PointCloud → Except String PointCloud)
    (cfg : Config) (st : Store) (d : Handle)
    (hwf : st.WF) (halloc : (st.contents d).isSome = true) :
    ((backendExecute runProc cfg st d).1.contents d = st.contents d) ∧
    (∀ r, (backendExecute runProc cfg st d).2 = .ok r →
      r ≠ d ∧ st.contents r = none) ∧
    (∀ pc diag, st.contents d = some pc → runProc cfg pc = .error diag →
      backendExecute runProc cfg st d = (st, .error (.wrapped diag))) := by
  have hd : d < st.next := by
    by_contra hge
    rw [hwf d (le_of_not_lt hge)] at halloc
    simp [Option.isSome] at halloc
  rcases hc : st.contents d with _ | pc
  · rw [hc] at halloc
    simp [Option.isSome] at halloc
  · rcases hr : runProc cfg pc with diag | out
    · have hB : backendExecute runProc cfg st d = (st, .error (.wrapped diag)) := by
        simp only [backendExecute, hc, hr]
      refine ⟨by rw [hB]; exact hc, ?_, ?_⟩
      · intro r hrr
        rw [hB] at hrr
        simp at hrr
      · intro pc' diag' hpc hdiag
        injection hpc with hpc'
        subst hpc'
        rw [hr] at hdiag
        injection hdiag with hdiag'
        subst hdiag'
        exact hB
    · have hB : backendExecute runProc cfg st d =
          (⟨fun h => if h = st.next then some out else st.contents h,
            st.next + 1⟩, .ok st.next) := by
        simp only [backendExecute, hc, hr]
      refine ⟨?_, ?_, ?_⟩
      · rw [hB]
        show (if d = st.next then some out else st.contents d) = some pc
        rw [if_neg (Nat.ne_of_lt hd)]
        exact hc
      · intro r hrr
        rw [hB] at hrr
        injection hrr with hrr'
        subst hrr'
        exact ⟨Ne.symm (Nat.ne_of_lt hd), hwf st.next le_rfl⟩
      · intro pc' diag' hpc hdiag
        injection hpc with hpc'
        subst hpc'
        rw [hr] at hdiag
        exact Except.noConfusion hdiag

theorem backendExecute_immutable_witness :
    (Store.WF ⟨fun h => if h = 0 then some ⟨[]⟩ else none, 1⟩ ∧
      ((Store.contents ⟨fun h => if h = 0 then some ⟨[]⟩ else none, 1⟩ 0).isSome = true) ∧
      ((backendExecute (fun _ pc => .ok pc) []
          ⟨fun h => if h = 0 then some ⟨[]⟩ else none, 1⟩ 0).1.contents 0 =
        Store.contents ⟨fun h => if h = 0 then some ⟨[]⟩ else none, 1⟩ 0)) := by
  have hwf : Store.WF ⟨fun h => if h = 0 then some ⟨[]⟩ else none, 1⟩ := by
    intro h hh
    have hh' : (1 : ℕ) ≤ h := hh
    simp only []
    rw [if_neg (Nat.one_le_iff_ne_zero.mp hh')]
  refine ⟨hwf, by simp, ?_⟩
  exact (backendExecute_immutable (fun _ pc => .ok pc) []
    ⟨fun h => if h = 0 then some ⟨[]⟩ else none, 1⟩ 0 hwf (by simp)).1

/-! ## Identity resolution and the Segmentation Binder (spec §4.5, §4.7,
`doc/source/faq.rst`, segmentation notebook) -/

/-- Modelled from the spec: identity resolution failures — a hash matched by
no persisted Pipeline, or by more than one. -/
inductive ResolveErr where
  | notFound (h : PipelineIdentity)
  | ambiguous (h : PipelineIdentity)
deriving DecidableEq, Repr

/-- A filter library: the Pipelines persisted in one registered directory. -/
abbrev FilterLibrary := List Pipeline

/-- All Pipelines across the registered libraries whose identity hash equals
the stored hash. -/
def matching (libs : List FilterLibrary) (h : PipelineIdentity) : List Pipeline :=
  libs.flatten.filter (fun p => identity p = h)

/-- Modelled from the spec (§4.5): `resolve(hash, libraries)` — scans all
registered libraries; `NotFoundError` when no on-disk Pipeline matches,
`AmbiguousIdentityError` when more than one does. -/
def resolve (libs : List FilterLibrary) (h : PipelineIdentity) :
    Except ResolveErr Pipeline :=
  match matching libs h with
  | [] => .error (.notFound h)
  | [p] => .ok p
  | _ :: _ :: _ => .error (.ambiguous h)

/-- Modelled from the spec (§3 Segmentation): each feature carries a
classification and, once bound, a Pipeline-identity hash. -/
structure Segmentation where
  features : List (String × PipelineIdentity)

/-- Modelled from the spec (§4.7): `resolve_all` — resolves every bound hash
through the registered libraries; any single resolution failure aborts the
whole resolution before anything is processed. -/
def resolveAll (libs : List FilterLibrary) (seg : Segmentation) :
    Except ResolveErr (List (String × Pipeline)) :=
  seg.features.mapM (fun cf => (resolve libs cf.2).map (fun p => (cf.1, p)))

/-- Modelled from the spec (§4.8): adaptive application — resolve the whole
segmentation first, then process each segment's region with its resolved
Pipeline.  No region is processed unless resolution fully succeeded. -/
def applyAdaptive (env : ExecEnv) (libs : List FilterLibrary)
    (seg : Segmentation) (regions : String → PointCloud) :
    Except ResolveErr (List (String × Except ExecErr PointCloud)) :=
  match resolveAll libs seg with
  | .error e => .error e
  | .ok m => .ok (m.map (fun cp => (cp.1, Pipeline.execute env cp.2 (regions cp.1))))

theorem resolve_ok_iff (libs : List FilterLibrary) (h : PipelineIdentity) :
    (∃ p, resolve libs h = .ok p) ↔ (matching libs h).length = 1 := by
  unfold resolve
  rcases hm : matching libs h with _ | ⟨p, _ | ⟨q, rest⟩⟩ <;> simp

/-- C2: segmentation resolution is all-or-nothing — it succeeds exactly when
every bound hash matches exactly one Pipeline across all registered
libraries; a hash with no match is `NotFoundError`, a hash with several is
`AmbiguousIdentityError`, and on any failure `applyAdaptive` propagates the
error before any dataset region has been processed, returning no partial
mapping. -/
theorem resolveAll_all_or_nothing (libs : List FilterLibrary) (seg : Segmentation) :
    ((∃ m, resolveAll libs seg = .ok m) ↔
      ∀ cf ∈ seg.features, (matching libs cf.2).length = 1) ∧
    (∀ h, resolve libs h = .error (.notFound h) ↔
      (matching libs h).length = 0) ∧
    (∀ h, resolve libs h = .error (.ambiguous h) ↔
      2 ≤ (matching libs h).length) ∧
    (∀ e env regions, resolveAll libs seg = .error e →
      applyAdaptive env libs seg regions = .error e) := by
  refine ⟨?_, ?_, ?_, ?_⟩
  · obtain ⟨l⟩ := seg
    show (∃ m, l.mapM _ = Except.ok m) ↔ _
    induction l with
    | nil =>
      constructor
      · intro _ t ht
        exact absurd ht (List.not_mem_nil t)
      · intro _
        exact ⟨[], rfl⟩
    | cons cf rest ih =>
      rw [List.mapM_cons]
      constructor
      · rintro ⟨m, hm⟩
        intro t ht
        rcases List.mem_cons.mp ht with rfl | ht'
        · rcases hr : resolve libs t.2 with e | p
          · rw [hr] at hm
            simp [Except.map, Except.bind, Bind.bind] at hm
          · exact (resolve_ok_iff libs t.2).mp ⟨p, hr⟩
        · rcases hr : resolve libs cf.2 with e | p
          · rw [hr] at hm
            simp [Except.map, Except.bind, Bind.bind] at hm
          · rcases hrest : rest.mapM (fun cf => (resolve libs cf.2).map
                (fun p => (cf.1, p))) with e | ms
            · rw [hr, hrest] at hm
              simp [Except.map, Except.bind, Bind.bind] at hm
            · exact (ih.mp ⟨ms, hrest⟩) t ht'
      · intro hall
        obtain ⟨p, hp⟩ := (resolve_ok_iff libs cf.2).mpr
          (hall cf (List.mem_cons_self cf rest))
        obtain ⟨ms, hms⟩ := ih.mpr (fun t ht => hall t (List.mem_cons_of_mem cf ht))
        refine ⟨(cf.1, p) :: ms, ?_⟩
        rw [hp, hms]
        rfl
  · intro h
    unfold resolve
    rcases hm : matching libs h with _ | ⟨p, _ | ⟨q, rest⟩⟩ <;> simp
  · intro h
    unfold resolve
    rcases hm : matching libs h with _ | ⟨p, _ | ⟨q, rest⟩⟩ <;> simp
  · intro e env regions hres
    unfold applyAdaptive
    rw [hres]

/-- An unresolvable segmentation: one bound hash, no registered Pipelines. -/
def segC2 : Segmentation := ⟨[("slope", identity pC1)]⟩

theorem resolveAll_all_or_nothing_witness :
    resolveAll [] segC2 = .error (.notFound (identity pC1)) ∧
    applyAdaptive (fun _ => none) [] segC2 (fun _ => ⟨[]⟩) =
      .error (.notFound (identity pC1)) := by
  have h : resolveAll [] segC2 = .error (.notFound (identity pC1)) := by decide
  exact ⟨h, (resolveAll_all_or_nothing [] segC2).2.2.2
    (.notFound (identity pC1)) (fun _ => none) (fun _ => ⟨[]⟩) h⟩

/-! ## Pipeline persistence (spec §6 Pipeline file format,
`jupyter/filtering.ipynb` cells 12-15) -/

/-- The full configuration of a Filter as persisted and validated: the
`_backend` discriminator field followed by the configured parameters. -/
def Filter.fullConfig (f : Filter) : Config :=
  ("_backend", .str f.backend) :: f.config

/-- Modelled from the spec (§6): the Pipeline file format — a structured
document holding the Filter sequence and the metadata. -/
structure PipelineDoc where
  filterEntries : List (String × String × Config × List String)
  title : String
  description : String
  tags : List String
deriving DecidableEq, Repr

/-- Modelled from the spec: `save_filter` serializes a Pipeline into the
document stored on disk. -/
def save_filter (p : Pipeline) : PipelineDoc :=
  ⟨p.filters.map (fun f => (f.backend, f.discriminant, f.config, f.endUserParams)),
    p.title, p.description, p.tags⟩

/-- Reconstruct one Filter from its document entry. -/
def docFilter (e : String × String × Config × List String) : Filter :=
  ⟨e.1, e.2.1, e.2.2.1, e.2.2.2⟩

/-- Modelled from the spec (§6): the load error for a document whose filter
configurations fail schema validation. -/
inductive LoadErr where
  | schemaError
deriving DecidableEq, Repr

/-- Modelled from the spec: `load_filter` restores the Pipeline from a
document, schema-validating every filter configuration on load. -/
def load_filter (schema : UnifiedSchema) (doc : PipelineDoc) :
    Except LoadErr Pipeline :=
  if doc.filterEntries.all (fun e => validate (docFilter e).fullConfig schema) then
    .ok ⟨doc.filterEntries.map docFilter, doc.title, doc.description, doc.tags⟩
  else .error .schemaError

/-- C6: saving a Pipeline and loading the file back reproduces a Pipeline
with the same identity hash and the same execution behavior on every
dataset. -/
theorem save_load_roundtrip (schema : UnifiedSchema) (p : Pipeline)
    (hvalid : ∀ f ∈ p.filters, validate f.fullConfig schema = true) :
    ∃ q, load_filter schema (save_filter p) = .ok q ∧
      identity q = identity p ∧
      ∀ env d, Pipeline.execute env q d = Pipeline.execute env p d := by
  have hq : load_filter schema (save_filter p) = .ok p := by
    unfold load_filter save_filter
    rw [if_pos]
    · congr 1
      cases p with
      | mk fs t dsc tg =>
        simp only [List.map_map]
        have hid : (docFilter ∘ fun f : Filter =>
            (f.backend, f.discriminant, f.config, f.endUserParams)) = id :=
          funext fun f => rfl
        rw [hid, List.map_id]
    · rw [List.all_eq_true]
      intro e he
      obtain ⟨f, hf, rfl⟩ := List.mem_map.mp he
      exact hvalid f hf
  exact ⟨p, hq, rfl, fun env d => rfl⟩

/-- A one-backend schema under which the concrete pipeline `pC6` validates. -/
def schemaC6 : UnifiedSchema :=
  compose [⟨"pdal",
    [⟨[("_backend", ⟨.string, some (.str "pdal")⟩),
       ("type", ⟨.string, some (.str "filters.smrf")⟩),
       ("slope", ⟨.number, none⟩)], ["type"]⟩],
    none⟩]

/-- A concrete valid pipeline for the round-trip witness. -/
def pC6 : Pipeline :=
  ⟨[⟨"pdal", "filters.smrf",
      [("type", .str "filters.smrf"), ("slope", .num (mkRat 1 5))],
      ["slope"]⟩],
    "My filter", "Tuned for steep terrain", ["steep"]⟩

theorem save_load_roundtrip_witness :
    (∀ f ∈ pC6.filters, validate f.fullConfig schemaC6 = true) ∧
    (∃ q, load_filter schemaC6 (save_filter pC6) = .ok q ∧
      identity q = identity pC6 ∧
      ∀ env d, Pipeline.execute env q d = Pipeline.execute env pC6 d) :=
  ⟨by decide, save_load_roundtrip schemaC6 pC6 (by decide)⟩

/-! ## Relative-path handling of the persistence operations
(`jupyter/filtering.ipynb` cells 12-15, spec §4.6) -/

/-- A filename passed to `save_filter`/`load_filter`: absolute, or relative
(path segments). -/
inductive FPath where
  | absolute (segs : List String)
  | relative (segs : List String)
deriving DecidableEq, Repr

/-- Modelled from the spec (§4.6): the session's path state — current
working directory, registered filter libraries, and the optional current
filter library declared via `set_current_filter_library`. -/
structure SessionPaths where
  cwd : List String
  libraries : List (List String)
  currentLibrary : Option (List String)

/-- Modelled from `jupyter/filtering.ipynb` (cell 12): the file a relative
`save_filter` filename denotes — interpreted w.r.t. the current filter
library when one has been declared, and w.r.t. the current working directory
otherwise. -/
def saveTarget (s : SessionPaths) (f : FPath) : List String :=
  match f with
  | .absolute segs => segs
  | .relative segs => s.currentLibrary.getD s.cwd ++ segs

/-- Modelled from `jupyter/filtering.ipynb` (cell 14): the candidate files a
`load_filter` filename denotes — a relative filename is interpreted w.r.t.
all filter libraries known to the session. -/
def loadCandidates (s : SessionPaths) (f : FPath) : List (List String) :=
  match f with
  | .absolute segs => [segs]
  | .relative segs => s.libraries.map (fun lib => lib ++ segs)

/-- Load resolution: `load_filter` picks the first candidate that exists on
disk. -/
def loadResolve (onDisk : List String → Bool) (s : SessionPaths) (f : FPath) :
    Option (List String) :=
  (loadCandidates s f).find? onDisk

/-- C10: relative filenames are resolved asymmetrically — `save_filter`
targets the current filter library when one is declared and the current
working directory otherwise, while `load_filter` searches all registered
filter libraries, and whatever it finds lies in one of them. -/
theorem save_load_path_asymmetry (s : SessionPaths) (segs : List String)
    (onDisk : List String → Bool) :
    (∀ L, s.currentLibrary = some L →
      saveTarget s (.relative segs) = L ++ segs) ∧
    (s.currentLibrary = none →
      saveTarget s (.relative segs) = s.cwd ++ segs) ∧
    (∀ lib ∈ s.libraries, lib ++ segs ∈ loadCandidates s (.relative segs)) ∧
    (∀ path, loadResolve onDisk s (.relative segs) = some path →
      onDisk path = true ∧ ∃ lib ∈ s.libraries, path = lib ++ segs) := by
  refine ⟨?_, ?_, ?_, ?_⟩
  · intro L hL
    simp [saveTarget, hL]
  · intro hnone
    simp [saveTarget, hnone]
  · intro lib hlib
    exact List.mem_map.mpr ⟨lib, hlib, rfl⟩
  · intro path hfind
    have hmem := List.mem_of_find?_eq_some hfind
    have hdisk := List.find?_some hfind
    obtain ⟨lib, hlib, rfl⟩ := List.mem_map.mp hmem
    exact ⟨hdisk, lib, hlib, rfl⟩

theorem save_load_path_asymmetry_witness :
    (SessionPaths.currentLibrary ⟨["home"], [["lib1"], ["lib2"]], some ["lib1"]⟩ =
      some ["lib1"] ∧
      saveTarget ⟨["home"], [["lib1"], ["lib2"]], some ["lib1"]⟩
        (.relative ["myfilter.json"]) = ["lib1"] ++ ["myfilter.json"]) ∧
    (SessionPaths.currentLibrary ⟨["home"], [["lib1"], ["lib2"]], none⟩ = none ∧
      saveTarget ⟨["home"], [["lib1"], ["lib2"]], none⟩
        (.relative ["myfilter.json"]) = ["home"] ++ ["myfilter.json"]) := by
  refine ⟨⟨rfl, ?_⟩, ⟨rfl, ?_⟩⟩
  · exact (save_load_path_asymmetry ⟨["home"], [["lib1"], ["lib2"]], some ["lib1"]⟩
      ["myfilter.json"] (fun _ => true)).1 ["lib1"] rfl
  · exact (save_load_path_asymmetry ⟨["home"], [["lib1"], ["lib2"]], none⟩
      ["myfilter.json"] (fun _ => true)).2.1 rfl

end AFwizard
